import Mathlib

/-!
Verification of the rustyroad scraper (src/main.rs) against its
natural-language specification.

The development shallowly embeds the relevant parts of `src/main.rs`:

* the string manipulations of `fetch_story` (URL truncation at
  "/chapter/", metadata extraction with its `unwrap`/`ok_or_else`
  error behaviour, chapter-row extraction),
* the extension/MIME dispatch of `fetch_and_add_cover`,
* the base-URL join of `fetch_chapter_content`,
* and the bounded-concurrency ordered pipeline built from
  `stream::iter(..).map(..).buffered(concurrent).try_for_each(..)`
  in `main`, modelled as a small-step transition system faithful to the
  semantics of the `futures` crate's `Buffered` combinator (whose window
  counts both running futures and completed-but-undelivered outputs).
-/

/-- Outcome of a fallible Rust computation: success, an `eyre` error with a
message, or a panic (an `unwrap` on `None`). -/
inductive Outcome (α : Type) where
  | ok (a : α)
  | err (msg : String)
  | panicked
deriving DecidableEq, Repr

/-- Monadic sequencing on `Outcome`, matching Rust `?` propagation; a panic
aborts everything. -/
def Outcome.bind {α β : Type} : Outcome α → (α → Outcome β) → Outcome β
  | .ok a, f => f a
  | .err m, _ => .err m
  | .panicked, _ => .panicked

/-- `Chapter` record from src/main.rs lines 28-32. -/
structure Chapter where
  name : String
  link : String
deriving DecidableEq, Repr

/-- `Story` record from src/main.rs lines 34-41. -/
structure Story where
  title : String
  author : String
  description : String
  cover : String
  chapters : List Chapter
deriving DecidableEq, Repr

/-- Embedding of Rust `str::trim`: drop whitespace from both ends. -/
def trimStr (s : String) : String :=
  ⟨((s.data.dropWhile Char.isWhitespace).reverse.dropWhile Char.isWhitespace).reverse⟩

/-- Embedding of Rust `url.split(pat).next().unwrap()` (src/main.rs line 48):
the prefix of the string before the first occurrence of the pattern, the whole
string when the pattern does not occur. -/
def takeUntilPat (pat : List Char) : List Char → List Char
  | [] => []
  | c :: rest =>
    if pat.isPrefixOf (c :: rest) then [] else c :: takeUntilPat pat rest

/-- Index of the first occurrence of `pat` in a character list, if any. -/
def firstOcc (pat : List Char) : List Char → Option Nat
  | [] => if pat.isPrefixOf ([] : List Char) then some 0 else none
  | c :: rest =>
    if pat.isPrefixOf (c :: rest) then some 0
    else (firstOcc pat rest).map (· + 1)

/-- The landing-page URL actually fetched by `fetch_story`
(src/main.rs line 48): the input truncated at the first "/chapter/". -/
def landing_url (url : String) : String :=
  ⟨takeUntilPat "/chapter/".data url.data⟩

/-- Following the spec's words: the prefix of the input before the first
occurrence of the substring "/chapter/"; the input unchanged when
"/chapter/" does not occur. -/
def specStoryUrl (url : String) : String :=
  match firstOcc "/chapter/".data url.data with
  | some i => ⟨url.data.take i⟩
  | none => url

/-- Model of one `<a>` element inside a row of the chapters table:
its `href` attribute (if present) and its descendant text nodes in
document order. -/
structure RowA where
  href : Option String
  texts : List String
deriving DecidableEq, Repr

/-- Model of the parsed landing page, as far as `fetch_story` inspects it.
Each meta field is `none` when the selector matches no node, and
`some a` when a node matches, with `a` its optional `content` attribute. -/
structure LandingDoc where
  twitterImage : Option (Option String)
  twitterCreator : Option (Option String)
  twitterTitle : Option (Option String)
  twitterDescription : Option (Option String)
  chaptersTable : Option (List RowA)
deriving DecidableEq, Repr

/-- Embedding of `doc.select(sel).next().unwrap().attr("content").ok_or_else(..)?`
(src/main.rs lines 53-83): a missing node panics (`unwrap` on `None`), a
present node with a missing attribute yields the given error message. -/
def metaContent (node : Option (Option String)) (msg : String) : Outcome String :=
  match node with
  | none => .panicked
  | some none => .err msg
  | some (some v) => .ok v

/-- Embedding of the chapter-row loop body (src/main.rs lines 93-101):
`chap.attr("href").unwrap()` panics on a missing href, and
`chap.text().next().unwrap().trim()` panics when the element has no text
node, otherwise takes the FIRST text node trimmed. -/
def chapterOfRow (r : RowA) : Outcome Chapter :=
  match r.href with
  | none => .panicked
  | some link =>
    match r.texts with
    | [] => .panicked
    | t :: _ => .ok ⟨trimStr t, link⟩

/-- The chapter-row loop of `fetch_story` (src/main.rs lines 90-101), over
the rows of the chapters table in document order. -/
def extractChapters : List RowA → Outcome (List Chapter)
  | [] => .ok []
  | r :: rs =>
    (chapterOfRow r).bind fun c =>
      (extractChapters rs).bind fun cs => .ok (c :: cs)

/-- The extraction phase of `fetch_story` (src/main.rs lines 51-109), applied
to the parsed landing page: cover, author, title, description in order, then
the chapters table and its rows. -/
def extractStory (d : LandingDoc) : Outcome Story :=
  (metaContent d.twitterImage "could not find cover image").bind fun cover =>
    (metaContent d.twitterCreator "could not find author").bind fun author =>
      (metaContent d.twitterTitle "could not find title").bind fun title =>
        (metaContent d.twitterDescription "could not find description").bind fun description =>
          (match d.chaptersTable with
            | none => Outcome.err "could not find chapters"
            | some rows => extractChapters rows).bind fun chapters =>
            .ok ⟨title, author, description, cover, chapters⟩

/-- `fetch_story` (src/main.rs lines 47-110), with the network abstracted as
a map from URL to parsed landing page: the input URL is truncated at the
first "/chapter/" and the page fetched there is scraped. -/
def fetch_story (net : String → LandingDoc) (url : String) : Outcome Story :=
  extractStory (net (landing_url url))

/-- Following the spec's words ("the row's text"): the concatenation of all
of a row's text nodes. -/
def rowFullText (r : RowA) : String :=
  String.join r.texts

/-- Embedding of `url.path().split(".").last().unwrap()`
(src/main.rs line 128): the segment of the path after the last `'.'`,
the whole path when it contains no `'.'`. -/
def extOfPath (p : String) : String :=
  ⟨(p.data.reverse.takeWhile (fun c => c != '.')).reverse⟩

/-- The `match ext.as_str()` of `fetch_and_add_cover`
(src/main.rs lines 130-134). -/
def mimeOf (ext : String) : Option String :=
  if ext = "jpg" ∨ ext = "jpeg" then some "image/jpeg"
  else if ext = "png" then some "image/png"
  else none

/-- The e-book document under construction, as far as the cover step touches
it: the optional cover image (file name, MIME type) and the ordered content
entries (entry name, title). -/
structure EpubDoc where
  cover : Option (String × String)
  contents : List (String × String)
deriving DecidableEq, Repr

/-- `fetch_and_add_cover` (src/main.rs lines 126-147) on the document state:
the extension of the cover URL's path selects the MIME type; an unsupported
extension errors before the builder is touched, otherwise the cover image and
the cover page are added. -/
def fetch_and_add_cover (doc : EpubDoc) (coverPath : String) :
    Except String Unit × EpubDoc :=
  let ext := extOfPath coverPath
  match mimeOf ext with
  | none => (.error "unsupported cover format", doc)
  | some mime =>
    (.ok (),
      { doc with
        cover := some ("cover." ++ ext, mime)
        contents := doc.contents ++ [("cover.xhtml", "Cover")] })

/-- Character-list version of Rust `str::starts_with` / URL prefix tests. -/
def charPrefix : List Char → List Char → Bool
  | [], _ => true
  | _ :: _, [] => false
  | p :: ps, c :: cs => p == c && charPrefix ps cs

/-- Modelled from the spec: "Relative links are resolved against a fixed base
origin before dispatch". This embeds the external `url` crate's
`Url::parse("https://www.royalroad.com")?.join(url)` (src/main.rs
lines 113-114) for the link shapes the program meets: an absolute
`http(s)://` link is kept, a scheme-relative `//host/..` link inherits the
base scheme, a path-absolute `/..` link is attached to the base origin, and
any other relative link is attached under the base root path. -/
def joinUrlChars (base url : List Char) : List Char :=
  if charPrefix "http://".data url || charPrefix "https://".data url then url
  else if charPrefix "//".data url then "https:".data ++ url
  else if charPrefix "/".data url then base ++ url
  else base ++ "/".data ++ url

/-- The URL dispatched by `fetch_chapter_content` for a chapter link
(src/main.rs lines 112-115). -/
def fetch_chapter_url (link : String) : String :=
  ⟨joinUrlChars "https://www.royalroad.com".data link.data⟩

/-- Rust `str::starts_with`, on the embedding's character lists. -/
def strStartsWith (s p : String) : Bool :=
  charPrefix p.data s.data

/-- State of the chapter pipeline
`stream::iter(chapters.enumerate()).map(fetch).buffered(C).try_for_each(add_chapter)`
(src/main.rs lines 220-232).

* `admitted`: chapters `0..admitted` have been pulled from the input stream
  and their fetch futures started (input order determines admission order);
* `completed`: the set of admitted chapters whose fetch future has finished;
* `delivered`: the `(index, content)` results handed, in order, to
  `try_for_each` and appended to the e-book builder;
* `failed`: `some e` once `try_for_each` has received an error and aborted;
* `finished`: the stream has reported exhaustion and the run succeeded. -/
structure PState where
  admitted : Nat
  completed : List Nat
  delivered : List (Nat × String)
  failed : Option String
  finished : Bool
deriving DecidableEq, Repr

/-- The initial pipeline state: nothing admitted, completed or delivered. -/
def PState.init : PState := ⟨0, [], [], none, false⟩

/-- One step of the pipeline, for chapter-fetch outcomes `out`, input length
`N` and concurrency `C`. Faithful to `Buffered` from the `futures` crate:

* `pull`: the combinator pulls the next future from the input stream only
  while its internal `FuturesOrdered` holds fewer than `C` entries — and that
  queue counts both running futures and completed-but-undelivered outputs,
  i.e. `admitted - delivered.length` entries;
* `complete`: any in-flight fetch may finish, in any order;
* `deliverOk`/`deliverErr`: `FuturesOrdered` yields outputs strictly in
  admission (= index) order, so the next index delivered is always
  `delivered.length`, and it must have completed; an `Err` output makes
  `try_for_each` abort the whole pipeline;
* `finish`: with `C > 0` the combinator eventually polls the input stream
  past its end and, once every result is delivered, reports exhaustion
  (with `C = 0` the inner stream is never polled, so exhaustion is never
  observed). -/
inductive PStep (out : Nat → Except String String) (N C : Nat) :
    PState → PState → Prop where
  | pull (s : PState) :
      s.finished = false → s.failed = none →
      s.admitted < N → s.admitted - s.delivered.length < C →
      PStep out N C s { s with admitted := s.admitted + 1 }
  | complete (s : PState) (i : Nat) :
      s.finished = false → s.failed = none →
      i < s.admitted → i ∉ s.completed →
      PStep out N C s { s with completed := i :: s.completed }
  | deliverOk (s : PState) (b : String) :
      s.finished = false → s.failed = none →
      s.delivered.length ∈ s.completed →
      out s.delivered.length = .ok b →
      PStep out N C s { s with delivered := s.delivered ++ [(s.delivered.length, b)] }
  | deliverErr (s : PState) (e : String) :
      s.finished = false → s.failed = none →
      s.delivered.length ∈ s.completed →
      out s.delivered.length = .error e →
      PStep out N C s { s with failed := some e }
  | finish (s : PState) :
      s.finished = false → s.failed = none →
      s.admitted = N → s.delivered.length = N → 0 < C →
      PStep out N C s { s with finished := true }

/-- Reachability of a pipeline state from the initial state, for a given
chapter list, concurrency and fetch outcomes. -/
def Reach (chapters : List Chapter) (C : Nat)
    (out : Nat → Except String String) (s : PState) : Prop :=
  Relation.ReflTransGen (PStep out chapters.length C) PState.init s

/-- A pipeline state from which no step is possible: the run is over
(or, with `C = 0`, hung). -/
def Stuck (chapters : List Chapter) (C : Nat)
    (out : Nat → Except String String) (s : PState) : Prop :=
  ∀ s', ¬ PStep out chapters.length C s s'

/-- The chapters whose fetch is currently running: admitted but not yet
completed. -/
def inFlight (s : PState) : List Nat :=
  (List.range s.admitted).filter (fun i => decide (i ∉ s.completed))

/-- Inductive invariant of the pipeline. -/
structure PInv (out : Nat → Except String String) (N C : Nat) (s : PState) : Prop where
  adm_le : s.admitted ≤ N
  window : s.admitted ≤ s.delivered.length + C
  comp_lt : ∀ i ∈ s.completed, i < s.admitted
  comp_nodup : s.completed.Nodup
  del_le_adm : s.delivered.length ≤ s.admitted
  del_idx : s.delivered.map Prod.fst = List.range s.delivered.length
  del_ok : ∀ p ∈ s.delivered, out p.1 = Except.ok p.2
  del_comp : ∀ i < s.delivered.length, i ∈ s.completed
  fail_err : ∀ e, s.failed = some e → out s.delivered.length = Except.error e
  fin_done : s.finished = true → s.delivered.length = N ∧ s.failed = none

theorem pinv_init (out : Nat → Except String String) (N C : Nat) :
    PInv out N C PState.init := by
  constructor <;> simp [PState.init]

theorem pinv_step {out : Nat → Except String String} {N C : Nat} {s s' : PState}
    (h : PInv out N C s) (hs : PStep out N C s s') : PInv out N C s' := by
  cases hs with
  | pull h1 h2 h3 h4 =>
    obtain ⟨a1, a2, a3, a4, a5, a6, a7, a8, a9, a10⟩ := h
    refine ⟨h3, by simp; omega, ?_, a4, by simp; omega, a6, a7, a8, ?_, ?_⟩
    · intro i hi
      simp at hi ⊢
      exact Nat.lt_succ_of_lt (a3 i hi)
    · intro e he
      exact a9 e he
    · intro hf
      simp at hf
      exact absurd hf (by simp [h1])
  | complete i h1 h2 h3 h4 =>
    obtain ⟨a1, a2, a3, a4, a5, a6, a7, a8, a9, a10⟩ := h
    refine ⟨a1, a2, ?_, ?_, a5, a6, a7, ?_, a9, ?_⟩
    · intro j hj
      simp at hj ⊢
      rcases hj with rfl | hj
      · exact h3
      · exact a3 j hj
    · simp [List.nodup_cons]
      exact ⟨h4, a4⟩
    · intro j hj
      simp at hj ⊢
      exact Or.inr (a8 j hj)
    · intro hf
      simp at hf
      exact absurd hf (by simp [h1])
  | deliverOk b h1 h2 h3 h4 =>
    obtain ⟨a1, a2, a3, a4, a5, a6, a7, a8, a9, a10⟩ := h
    have hlt := a3 _ h3
    refine ⟨a1, by simp; omega, ?_, a4, by simp; omega, ?_, ?_, ?_, ?_, ?_⟩
    · intro i hi
      exact a3 i hi
    · simp [a6, List.range_succ]
    · intro p hp
      simp at hp
      rcases hp with hp | rfl
      · exact a7 p hp
      · exact h4
    · intro i hi
      simp at hi ⊢
      rcases Nat.lt_or_ge i s.delivered.length with hi' | hi'
      · exact a8 i hi'
      · have hieq : i = s.delivered.length := by omega
        subst hieq
        exact h3
    · intro e he
      simp at he
      exact absurd he (by simp [h2])
    · intro hf
      simp at hf
      exact absurd hf (by simp [h1])
  | deliverErr e h1 h2 h3 h4 =>
    obtain ⟨a1, a2, a3, a4, a5, a6, a7, a8, a9, a10⟩ := h
    refine ⟨a1, a2, a3, a4, a5, a6, a7, a8, ?_, ?_⟩
    · intro e' he'
      simp at he'
      subst he'
      exact h4
    · intro hf
      simp at hf
      exact absurd hf (by simp [h1])
  | finish h1 h2 h3 h4 h5 =>
    obtain ⟨a1, a2, a3, a4, a5, a6, a7, a8, a9, a10⟩ := h
    exact ⟨a1, a2, a3, a4, a5, a6, a7, a8, a9, fun _ => ⟨h4, h2⟩⟩

theorem pinv_reach {chapters : List Chapter} {C : Nat}
    {out : Nat → Except String String} {s : PState}
    (h : Reach chapters C out s) : PInv out chapters.length C s := by
  induction h with
  | refl => exact pinv_init out chapters.length C
  | tail _ hstep ih => exact pinv_step ih hstep

/-- Progress: with positive concurrency, a run that has neither finished nor
failed always has an enabled step. -/
theorem pstep_progress {out : Nat → Except String String} {N C : Nat} {s : PState}
    (hC : 0 < C) (hinv : PInv out N C s)
    (hfin : s.finished = false) (hfail : s.failed = none) :
    ∃ s', PStep out N C s s' := by
  by_cases hmem : s.delivered.length ∈ s.completed
  · cases hout : out s.delivered.length with
    | ok b => exact ⟨_, .deliverOk s b hfin hfail hmem hout⟩
    | error e => exact ⟨_, .deliverErr s e hfin hfail hmem hout⟩
  · by_cases hlt : s.delivered.length < s.admitted
    · exact ⟨_, .complete s s.delivered.length hfin hfail hlt hmem⟩
    · have heq : s.delivered.length = s.admitted := by
        have := hinv.del_le_adm
        omega
      by_cases hadm : s.admitted < N
      · exact ⟨_, .pull s hfin hfail hadm (by omega)⟩
      · have hN : s.admitted = N := by
          have := hinv.adm_le
          omega
        exact ⟨_, .finish s hfin hfail hN (by omega) hC⟩

/-- A list whose first projections enumerate `0..n-1` in order and whose
second components are determined by the first is the enumerated range. -/
theorem delivered_enum {l : List (Nat × String)} {n : Nat} {b : Nat → String}
    (hidx : l.map Prod.fst = List.range n)
    (hval : ∀ p ∈ l, p.2 = b p.1) :
    l = (List.range n).map (fun i => (i, b i)) := by
  have hlen : l.length = n := by
    have h0 := congrArg List.length hidx
    simpa using h0
  apply List.ext_getElem?
  intro i
  by_cases hi : i < n
  · have hil : i < l.length := by omega
    have h1 : l[i]? = some l[i] := List.getElem?_eq_getElem hil
    have h2 : (l.map Prod.fst)[i]? = some i := by
      rw [hidx]
      exact List.getElem?_range hi
    rw [List.getElem?_map, h1] at h2
    simp at h2
    have h3 : l[i] ∈ l := List.getElem_mem hil
    have h4 := hval _ h3
    have h5 : ((List.range n).map (fun j => (j, b j)))[i]? = some (i, b i) := by
      rw [List.getElem?_map, List.getElem?_range hi]
      rfl
    rw [h1, h5]
    congr 1
    rw [Prod.ext_iff]
    exact ⟨h2, by rw [h4, h2]⟩
  · have h1 : l[i]? = none := List.getElem?_eq_none (by omega)
    have h2 : ((List.range n).map (fun j => (j, b j)))[i]? = none :=
      List.getElem?_eq_none (by simp; omega)
    rw [h1, h2]

/-- A duplicate-free list of naturals all lying in `[a, b)` has at most
`b - a` elements. -/
theorem nodup_length_le_of_mem_Ico {l : List Nat} (hnd : l.Nodup) (a b : Nat)
    (h : ∀ x ∈ l, a ≤ x ∧ x < b) : l.length ≤ b - a := by
  classical
  have hsub : l.toFinset ⊆ Finset.Ico a b := by
    intro x hx
    simp at hx
    rcases h x hx with ⟨h1, h2⟩
    simp [Finset.mem_Ico]
    exact ⟨h1, h2⟩
  have hcard := Finset.card_le_card hsub
  rwa [List.toFinset_card_of_nodup hnd, Nat.card_Ico] at hcard

/-- With concurrency `0`, the pipeline has no enabled step: every reachable
state is the initial state. -/
theorem reach_zero {chapters : List Chapter} {out : Nat → Except String String}
    {s : PState} (h : Reach chapters 0 out s) : s = PState.init := by
  induction h with
  | refl => rfl
  | tail _ hstep ih =>
    subst ih
    cases hstep with
    | pull h1 h2 h3 h4 => exact absurd h4 (by simp [PState.init])
    | complete i h1 h2 h3 h4 => exact absurd h3 (by simp [PState.init])
    | deliverOk b h1 h2 h3 h4 => exact absurd h3 (by simp [PState.init])
    | deliverErr e h1 h2 h3 h4 => exact absurd h3 (by simp [PState.init])
    | finish h1 h2 h3 h4 h5 => exact absurd h5 (by simp)

/-- On well-formed rows (an `href` and at least one text node each, so no
`unwrap` panics), the chapter loop returns one chapter per row in row order,
with the first text node trimmed as name and the raw href as link. -/
theorem extractChapters_wf : ∀ rows : List RowA,
    (∀ r ∈ rows, r.href ≠ none ∧ r.texts ≠ []) →
    extractChapters rows =
      Outcome.ok (rows.map fun r =>
        Chapter.mk (trimStr (r.texts.headD "")) (r.href.getD "")) := by
  intro rows
  induction rows with
  | nil => intro _; rfl
  | cons r rs ih =>
    intro hwf
    obtain ⟨hh, ht⟩ := hwf r (by simp)
    have ihh := ih (fun r' hr' => hwf r' (List.mem_cons_of_mem _ hr'))
    cases hhref : r.href with
    | none => exact absurd hhref hh
    | some link =>
      cases htexts : r.texts with
      | nil => exact absurd htexts ht
      | cons t ts =>
        simp [extractChapters, chapterOfRow, hhref, htexts, Outcome.bind, ihh]

/-- `takeUntilPat` (i.e. Rust `split(pat).next().unwrap()`) is the prefix
before the first occurrence of the pattern, the whole list when the pattern
does not occur. -/
theorem takeUntil_firstOcc (pat : List Char) : ∀ l : List Char,
    takeUntilPat pat l =
      (match firstOcc pat l with
        | some i => l.take i
        | none => l) := by
  intro l
  induction l with
  | nil =>
    by_cases h : pat.isPrefixOf ([] : List Char) = true
    · simp [takeUntilPat, firstOcc, h]
    · simp [takeUntilPat, firstOcc, h]
  | cons c t ih =>
    by_cases h : pat.isPrefixOf (c :: t) = true
    · simp [takeUntilPat, firstOcc, h]
    · cases ho : firstOcc pat t with
      | none =>
        rw [ho] at ih
        simp only at ih
        simp [takeUntilPat, firstOcc, h, ho, ih]
      | some i =>
        rw [ho] at ih
        simp only at ih
        simp [takeUntilPat, firstOcc, h, ho, ih]

-- Basic sanity checks of the embedding on concrete inputs.

example : landing_url "https://a.b/fiction/1/x/chapter/2/y" = "https://a.b/fiction/1/x" := by
  decide

example : landing_url "https://a.b/fiction/1/x" = "https://a.b/fiction/1/x" := by
  decide

example : extOfPath "/covers/pic.jpeg" = "jpeg" := by decide

example : extOfPath "/covers/none" = "/covers/none" := by decide

example : trimStr "  Chapter One \n" = "Chapter One" := by decide

example : fetch_chapter_url "/chapter/x" = "https://www.royalroad.com/chapter/x" := by
  decide

/-- C1: For every chapter list of length N and every concurrency C with
1 ≤ C ≤ N, when every chapter fetch/extract succeeds, every completed run of
the pipeline (any maximal interleaving of admissions, completions and
deliveries, hence regardless of completion order) delivers exactly the N
chapter results to the document assembler in strictly ascending index order
0, 1, …, N-1 — no gaps, no duplicates — and the run succeeds. -/
theorem c1_pipeline_in_order (chapters : List Chapter) (C : Nat)
    (b : Nat → String) (out : Nat → Except String String)
    (hC1 : 1 ≤ C) (hCN : C ≤ chapters.length)
    (hok : ∀ i, out i = Except.ok (b i))
    (s : PState) (hreach : Reach chapters C out s)
    (hstuck : Stuck chapters C out s) :
    s.failed = none ∧ s.finished = true ∧
      s.delivered = (List.range chapters.length).map (fun i => (i, b i)) := by
  have hinv := pinv_reach hreach
  have hfail : s.failed = none := by
    cases hf : s.failed with
    | none => rfl
    | some e =>
      have h0 := hinv.fail_err e hf
      rw [hok] at h0
      exact absurd h0 (by simp)
  have hfin : s.finished = true := by
    cases hf : s.finished with
    | true => rfl
    | false =>
      obtain ⟨s', hs'⟩ := pstep_progress (by omega) hinv hf hfail
      exact absurd hs' (hstuck s')
  have hlen := (hinv.fin_done hfin).1
  refine ⟨hfail, hfin, ?_⟩
  have hidx := hinv.del_idx
  rw [hlen] at hidx
  refine delivered_enum hidx (fun p hp => ?_)
  have h1 := hinv.del_ok p hp
  rw [hok] at h1
  simpa using h1.symm

/-- Witness for C1: a complete concrete run, two chapters at concurrency 1. -/
theorem c1_witness :
    (PState.mk 2 [1, 0] [(0, "body"), (1, "body")] none true).failed = none ∧
    (PState.mk 2 [1, 0] [(0, "body"), (1, "body")] none true).finished = true ∧
    (PState.mk 2 [1, 0] [(0, "body"), (1, "body")] none true).delivered =
      (List.range [Chapter.mk "c0" "l0", Chapter.mk "c1" "l1"].length).map
        (fun i => (i, "body")) := by
  have st1 : PStep (fun _ => Except.ok "body") 2 1 PState.init ⟨1, [], [], none, false⟩ :=
    PStep.pull PState.init rfl rfl (by decide) (by decide)
  have st2 : PStep (fun _ => Except.ok "body") 2 1
      ⟨1, [], [], none, false⟩ ⟨1, [0], [], none, false⟩ :=
    PStep.complete ⟨1, [], [], none, false⟩ 0 rfl rfl (by decide) (by decide)
  have st3 : PStep (fun _ => Except.ok "body") 2 1
      ⟨1, [0], [], none, false⟩ ⟨1, [0], [(0, "body")], none, false⟩ :=
    PStep.deliverOk ⟨1, [0], [], none, false⟩ "body" rfl rfl (by decide) rfl
  have st4 : PStep (fun _ => Except.ok "body") 2 1
      ⟨1, [0], [(0, "body")], none, false⟩ ⟨2, [0], [(0, "body")], none, false⟩ :=
    PStep.pull ⟨1, [0], [(0, "body")], none, false⟩ rfl rfl (by decide) (by decide)
  have st5 : PStep (fun _ => Except.ok "body") 2 1
      ⟨2, [0], [(0, "body")], none, false⟩ ⟨2, [1, 0], [(0, "body")], none, false⟩ :=
    PStep.complete ⟨2, [0], [(0, "body")], none, false⟩ 1 rfl rfl (by decide) (by decide)
  have st6 : PStep (fun _ => Except.ok "body") 2 1
      ⟨2, [1, 0], [(0, "body")], none, false⟩
      ⟨2, [1, 0], [(0, "body"), (1, "body")], none, false⟩ :=
    PStep.deliverOk ⟨2, [1, 0], [(0, "body")], none, false⟩ "body" rfl rfl (by decide) rfl
  have st7 : PStep (fun _ => Except.ok "body") 2 1
      ⟨2, [1, 0], [(0, "body"), (1, "body")], none, false⟩
      ⟨2, [1, 0], [(0, "body"), (1, "body")], none, true⟩ :=
    PStep.finish ⟨2, [1, 0], [(0, "body"), (1, "body")], none, false⟩ rfl rfl rfl rfl
      (by decide)
  have hreach : Reach [Chapter.mk "c0" "l0", Chapter.mk "c1" "l1"] 1
      (fun _ => Except.ok "body") ⟨2, [1, 0], [(0, "body"), (1, "body")], none, true⟩ :=
    Relation.ReflTransGen.refl.tail st1 |>.tail st2 |>.tail st3 |>.tail st4
      |>.tail st5 |>.tail st6 |>.tail st7
  have hstuck : Stuck [Chapter.mk "c0" "l0", Chapter.mk "c1" "l1"] 1
      (fun _ => Except.ok "body") ⟨2, [1, 0], [(0, "body"), (1, "body")], none, true⟩ := by
    intro s' hs'
    cases hs' <;> simp_all
  exact c1_pipeline_in_order [Chapter.mk "c0" "l0", Chapter.mk "c1" "l1"] 1
    (fun _ => "body") (fun _ => Except.ok "body") (by decide) (by decide)
    (fun _ => rfl) ⟨2, [1, 0], [(0, "body"), (1, "body")], none, true⟩ hreach hstuck

/-- C2 is false on the code: with concurrency 0 (a one-chapter list for
concreteness), no reachable pipeline state carries any error — there is no
concurrency validation and no ConfigError; the run simply never progresses. -/
theorem c2_counterexample :
    ¬ ∃ s, Reach [Chapter.mk "c0" "l0"] 0 (fun _ => Except.ok "x") s ∧
      s.failed.isSome = true := by
  rintro ⟨s, hr, hfail⟩
  rw [reach_zero hr] at hfail
  simp [PState.init] at hfail

/-- C2 (amended): running the pipeline with concurrency = 0 performs zero
fetches — but not because of a ConfigError: the code validates nothing, and
`buffered(0)` never polls the underlying stream, so no step is enabled at
all; every reachable state is the initial state (no fetch started, nothing
delivered, no error ever produced — the run hangs). -/
theorem c2_zero_concurrency_hangs (chapters : List Chapter)
    (out : Nat → Except String String) (s : PState)
    (h : Reach chapters 0 out s) :
    s = PState.init ∧ s.admitted = 0 ∧ s.delivered = [] ∧ s.failed = none := by
  have h0 := reach_zero h
  subst h0
  exact ⟨rfl, rfl, rfl, rfl⟩

/-- Witness for the amended C2, at the initial state of a one-chapter run. -/
theorem c2_witness :
    PState.init = PState.init ∧ PState.init.admitted = 0 ∧
      PState.init.delivered = [] ∧ PState.init.failed = none :=
  c2_zero_concurrency_hangs [Chapter.mk "c0" "l0"] (fun _ => Except.ok "x")
    PState.init Relation.ReflTransGen.refl

/-- C3: if the fetch/extract of chapter k is the first (by index) to fail,
then in every reachable state only results of index < k have been delivered
(never a result of index ≥ k, and only full results), and every completed
run ends failed with exactly chapter k's error, having delivered exactly the
results 0..k-1 in order. -/
theorem c3_first_error (chapters : List Chapter) (C : Nat)
    (out : Nat → Except String String) (k : Nat) (e0 : String)
    (hC : 1 ≤ C) (hk : k < chapters.length)
    (herr : out k = Except.error e0)
    (hbelow : ∀ j < k, ∃ bj, out j = Except.ok bj) :
    (∀ s, Reach chapters C out s → ∀ p ∈ s.delivered, p.1 < k) ∧
    (∀ s, Reach chapters C out s → Stuck chapters C out s →
      s.failed = some e0 ∧ s.delivered.map Prod.fst = List.range k) := by
  have hlen_le : ∀ s, Reach chapters C out s → s.delivered.length ≤ k := by
    intro s hr
    have hinv := pinv_reach hr
    by_contra hgt
    push_neg at hgt
    have hkmem : k ∈ s.delivered.map Prod.fst := by
      rw [hinv.del_idx]
      simp
      omega
    obtain ⟨p, hp, hpk⟩ := List.mem_map.mp hkmem
    have h1 := hinv.del_ok p hp
    rw [hpk, herr] at h1
    simp at h1
  constructor
  · intro s hr p hp
    have hinv := pinv_reach hr
    have h1 : p.1 ∈ s.delivered.map Prod.fst := List.mem_map_of_mem _ hp
    rw [hinv.del_idx] at h1
    simp at h1
    have := hlen_le s hr
    omega
  · intro s hr hstuck
    have hinv := pinv_reach hr
    have hle := hlen_le s hr
    cases hf : s.failed with
    | some e =>
      have hout := hinv.fail_err e hf
      have hkeq : s.delivered.length = k := by
        rcases Nat.lt_or_ge s.delivered.length k with hlt | _
        · obtain ⟨bj, hbj⟩ := hbelow _ hlt
          rw [hbj] at hout
          simp at hout
        · omega
      rw [hkeq] at hout
      rw [herr] at hout
      simp at hout
      subst hout
      exact ⟨rfl, by rw [hinv.del_idx, hkeq]⟩
    | none =>
      exfalso
      cases hfin : s.finished with
      | false =>
        obtain ⟨s', hs'⟩ := pstep_progress (by omega) hinv hfin hf
        exact hstuck s' hs'
      | true =>
        have := (hinv.fin_done hfin).1
        omega

/-- Witness for C3: one chapter whose fetch fails; the run aborts with its
error and delivers nothing. -/
theorem c3_witness :
    (PState.mk 1 [0] [] (some "boom") false).failed = some "boom" ∧
    (PState.mk 1 [0] [] (some "boom") false).delivered.map Prod.fst =
      List.range 0 := by
  have st1 : PStep (fun _ => Except.error "boom") 1 1 PState.init
      ⟨1, [], [], none, false⟩ :=
    PStep.pull PState.init rfl rfl (by decide) (by decide)
  have st2 : PStep (fun _ => Except.error "boom") 1 1
      ⟨1, [], [], none, false⟩ ⟨1, [0], [], none, false⟩ :=
    PStep.complete ⟨1, [], [], none, false⟩ 0 rfl rfl (by decide) (by decide)
  have st3 : PStep (fun _ => Except.error "boom") 1 1
      ⟨1, [0], [], none, false⟩ ⟨1, [0], [], some "boom", false⟩ :=
    PStep.deliverErr ⟨1, [0], [], none, false⟩ "boom" rfl rfl (by decide) rfl
  have hreach : Reach [Chapter.mk "c0" "l0"] 1 (fun _ => Except.error "boom")
      ⟨1, [0], [], some "boom", false⟩ :=
    Relation.ReflTransGen.refl.tail st1 |>.tail st2 |>.tail st3
  have hstuck : Stuck [Chapter.mk "c0" "l0"] 1 (fun _ => Except.error "boom")
      ⟨1, [0], [], some "boom", false⟩ := by
    intro s' hs'
    cases hs' <;> simp_all
  exact (c3_first_error [Chapter.mk "c0" "l0"] 1 (fun _ => Except.error "boom")
    0 "boom" (by decide) (by decide) rfl (fun j hj => absurd hj (by omega))).2
    ⟨1, [0], [], some "boom", false⟩ hreach hstuck

/-- C6: with an empty chapter list (and any positive concurrency, the
program's default being 5), the pipeline performs zero fetches and delivers
nothing in every reachable state, and the run succeeds: the stream-exhausted
success state is reachable. -/
theorem c6_empty_list (C : Nat) (out : Nat → Except String String) (hC : 0 < C) :
    (∀ s, Reach ([] : List Chapter) C out s →
      s.admitted = 0 ∧ s.completed = [] ∧ s.delivered = [] ∧ s.failed = none) ∧
    Reach ([] : List Chapter) C out ⟨0, [], [], none, true⟩ := by
  constructor
  · intro s hr
    induction hr with
    | refl => exact ⟨rfl, rfl, rfl, rfl⟩
    | tail _ hstep ih =>
      obtain ⟨i1, i2, i3, i4⟩ := ih
      cases hstep with
      | pull h1 h2 h3 h4 =>
        rw [i1] at h3
        exact absurd h3 (by simp)
      | complete i h1 h2 h3 h4 =>
        rw [i1] at h3
        exact absurd h3 (by omega)
      | deliverOk b h1 h2 h3 h4 =>
        rw [i2] at h3
        exact absurd h3 (by simp)
      | deliverErr e h1 h2 h3 h4 =>
        rw [i2] at h3
        exact absurd h3 (by simp)
      | finish h1 h2 h3 h4 h5 =>
        exact ⟨i1, i2, i3, i4⟩
  · exact Relation.ReflTransGen.single (PStep.finish PState.init rfl rfl rfl rfl hC)

/-- Witness for C6, at the default concurrency 5. -/
theorem c6_witness :
    (PState.init.admitted = 0 ∧ PState.init.completed = [] ∧
      PState.init.delivered = [] ∧ PState.init.failed = none) ∧
    Reach ([] : List Chapter) 5 (fun _ => Except.ok "x") ⟨0, [], [], none, true⟩ := by
  have h := c6_empty_list 5 (fun _ => Except.ok "x") (by decide)
  exact ⟨h.1 PState.init Relation.ReflTransGen.refl, h.2⟩

/-- C7 is false as stated: three chapters at concurrency 2; chapters 0 and 1
are admitted, then the fetch of chapter 1 completes while chapter 0 is still
in flight. An unsubmitted chapter (index 2) remains, yet no enabled step
admits it: the completed-but-undeliverable result of chapter 1 still occupies
a window slot of the `buffered` combinator, which frees only on delivery. -/
theorem c7_counterexample :
    Reach [Chapter.mk "a" "1", Chapter.mk "b" "2", Chapter.mk "c" "3"] 2
      (fun _ => Except.ok "x") ⟨2, [1], [], none, false⟩ ∧
    (PState.mk 2 [1] [] none false).admitted <
      [Chapter.mk "a" "1", Chapter.mk "b" "2", Chapter.mk "c" "3"].length ∧
    ¬ ∃ s', PStep (fun _ => Except.ok "x")
        [Chapter.mk "a" "1", Chapter.mk "b" "2", Chapter.mk "c" "3"].length 2
        ⟨2, [1], [], none, false⟩ s' ∧ 2 < s'.admitted := by
  refine ⟨?_, by decide, ?_⟩
  · have st1 : PStep (fun _ => Except.ok "x") 3 2 PState.init
        ⟨1, [], [], none, false⟩ :=
      PStep.pull PState.init rfl rfl (by decide) (by decide)
    have st2 : PStep (fun _ => Except.ok "x") 3 2
        ⟨1, [], [], none, false⟩ ⟨2, [], [], none, false⟩ :=
      PStep.pull ⟨1, [], [], none, false⟩ rfl rfl (by decide) (by decide)
    have st3 : PStep (fun _ => Except.ok "x") 3 2
        ⟨2, [], [], none, false⟩ ⟨2, [1], [], none, false⟩ :=
      PStep.complete ⟨2, [], [], none, false⟩ 1 rfl rfl (by decide) (by decide)
    exact Relation.ReflTransGen.refl.tail st1 |>.tail st2 |>.tail st3
  · rintro ⟨s', hs', hlt⟩
    cases hs' with
    | pull h1 h2 h3 h4 => exact absurd h4 (by decide)
    | complete i h1 h2 h3 h4 => exact absurd hlt (by simp)
    | deliverOk b h1 h2 h3 h4 => exact absurd h3 (by decide)
    | deliverErr e h1 h2 h3 h4 => exact absurd h3 (by decide)
    | finish h1 h2 h3 h4 h5 => exact absurd h3 (by decide)

/-- C7 (amended): at every point of a run at most C fetch/extract units are
in flight; but a window slot of the `buffered` combinator is occupied by
every admitted-but-undelivered chapter (running or completed-and-buffered),
so the next chapter is admitted exactly when fewer than C chapters are
admitted-but-undelivered — a completion alone need not enable admission;
delivery frees the slot. -/
theorem c7_window (chapters : List Chapter) (C : Nat)
    (out : Nat → Except String String) (s : PState)
    (h : Reach chapters C out s) :
    (inFlight s).length ≤ C ∧
    s.admitted - s.delivered.length ≤ C ∧
    (∀ s', PStep out chapters.length C s s' → s.admitted < s'.admitted →
      s.admitted - s.delivered.length < C) := by
  have hinv := pinv_reach h
  refine ⟨?_, by have := hinv.window; omega, ?_⟩
  · have h1 : (inFlight s).Nodup := (List.nodup_range _).filter _
    have h2 : ∀ x ∈ inFlight s, s.delivered.length ≤ x ∧ x < s.admitted := by
      intro x hx
      simp only [inFlight, List.mem_filter, List.mem_range, decide_eq_true_eq] at hx
      obtain ⟨hx1, hx2⟩ := hx
      refine ⟨?_, hx1⟩
      by_contra hlt
      push_neg at hlt
      exact hx2 (hinv.del_comp x hlt)
    have h3 := nodup_length_le_of_mem_Ico h1 s.delivered.length s.admitted h2
    have h4 := hinv.window
    omega
  · intro s' hs' hadm
    cases hs' with
    | pull h1 h2 h3 h4 => exact h4
    | complete i h1 h2 h3 h4 => simp at hadm
    | deliverOk b h1 h2 h3 h4 => simp at hadm
    | deliverErr e h1 h2 h3 h4 => simp at hadm
    | finish h1 h2 h3 h4 h5 => simp at hadm

/-- Witness for the amended C7, at the state of the counterexample trace. -/
theorem c7_witness :
    (inFlight ⟨2, [1], [], none, false⟩).length ≤ 2 ∧
    (PState.mk 2 [1] [] none false).admitted -
      (PState.mk 2 [1] [] none false).delivered.length ≤ 2 ∧
    (∀ s', PStep (fun _ => Except.ok "x")
        [Chapter.mk "a" "1", Chapter.mk "b" "2", Chapter.mk "c" "3"].length 2
        ⟨2, [1], [], none, false⟩ s' →
      (PState.mk 2 [1] [] none false).admitted < s'.admitted →
      (PState.mk 2 [1] [] none false).admitted -
        (PState.mk 2 [1] [] none false).delivered.length < 2) := by
  have st1 : PStep (fun _ => Except.ok "x") 3 2 PState.init
      ⟨1, [], [], none, false⟩ :=
    PStep.pull PState.init rfl rfl (by decide) (by decide)
  have st2 : PStep (fun _ => Except.ok "x") 3 2
      ⟨1, [], [], none, false⟩ ⟨2, [], [], none, false⟩ :=
    PStep.pull ⟨1, [], [], none, false⟩ rfl rfl (by decide) (by decide)
  have st3 : PStep (fun _ => Except.ok "x") 3 2
      ⟨2, [], [], none, false⟩ ⟨2, [1], [], none, false⟩ :=
    PStep.complete ⟨2, [], [], none, false⟩ 1 rfl rfl (by decide) (by decide)
  have hreach : Reach [Chapter.mk "a" "1", Chapter.mk "b" "2", Chapter.mk "c" "3"] 2
      (fun _ => Except.ok "x") ⟨2, [1], [], none, false⟩ :=
    Relation.ReflTransGen.refl.tail st1 |>.tail st2 |>.tail st3
  exact c7_window [Chapter.mk "a" "1", Chapter.mk "b" "2", Chapter.mk "c" "3"] 2
    (fun _ => Except.ok "x") ⟨2, [1], [], none, false⟩ hreach

/-- C4 is false as stated: on a landing page whose cover meta node is absent
entirely (all other required fields present), story resolution panics — the
source's `.next().unwrap()` on the empty selection — instead of aborting
with an extraction error naming the field. -/
theorem c4_counterexample :
    extractStory ⟨none, some (some "a"), some (some "t"), some (some "d"), some []⟩ =
      Outcome.panicked := rfl

/-- C4 (amended): a required meta field whose node is present but whose
`content` attribute is missing aborts resolution with an error naming the
field, and a missing chapter table aborts with "could not find chapters";
but a required meta field whose node is entirely absent makes resolution
panic (`unwrap` on `None`) rather than return an error. -/
theorem c4_missing_fields (d : LandingDoc) :
    (d.twitterImage = none → extractStory d = Outcome.panicked) ∧
    (d.twitterImage = some none →
      extractStory d = Outcome.err "could not find cover image") ∧
    (∀ c, d.twitterImage = some (some c) → d.twitterCreator = some none →
      extractStory d = Outcome.err "could not find author") ∧
    (∀ c a, d.twitterImage = some (some c) → d.twitterCreator = some (some a) →
      d.twitterTitle = some none →
      extractStory d = Outcome.err "could not find title") ∧
    (∀ c a t, d.twitterImage = some (some c) → d.twitterCreator = some (some a) →
      d.twitterTitle = some (some t) → d.twitterDescription = some none →
      extractStory d = Outcome.err "could not find description") ∧
    (∀ c a t de, d.twitterImage = some (some c) → d.twitterCreator = some (some a) →
      d.twitterTitle = some (some t) → d.twitterDescription = some (some de) →
      d.chaptersTable = none →
      extractStory d = Outcome.err "could not find chapters") ∧
    (∀ c, d.twitterImage = some (some c) → d.twitterCreator = none →
      extractStory d = Outcome.panicked) ∧
    (∀ c a, d.twitterImage = some (some c) → d.twitterCreator = some (some a) →
      d.twitterTitle = none → extractStory d = Outcome.panicked) ∧
    (∀ c a t, d.twitterImage = some (some c) → d.twitterCreator = some (some a) →
      d.twitterTitle = some (some t) → d.twitterDescription = none →
      extractStory d = Outcome.panicked) := by
  refine ⟨?_, ?_, ?_, ?_, ?_, ?_, ?_, ?_, ?_⟩
  · intro h1
    simp [extractStory, metaContent, Outcome.bind, h1]
  · intro h1
    simp [extractStory, metaContent, Outcome.bind, h1]
  · intro c h1 h2
    simp [extractStory, metaContent, Outcome.bind, h1, h2]
  · intro c a h1 h2 h3
    simp [extractStory, metaContent, Outcome.bind, h1, h2, h3]
  · intro c a t h1 h2 h3 h4
    simp [extractStory, metaContent, Outcome.bind, h1, h2, h3, h4]
  · intro c a t de h1 h2 h3 h4 h5
    simp [extractStory, metaContent, Outcome.bind, h1, h2, h3, h4, h5]
  · intro c h1 h2
    simp [extractStory, metaContent, Outcome.bind, h1, h2]
  · intro c a h1 h2 h3
    simp [extractStory, metaContent, Outcome.bind, h1, h2, h3]
  · intro c a t h1 h2 h3 h4
    simp [extractStory, metaContent, Outcome.bind, h1, h2, h3, h4]

/-- Witness for the amended C4: each missing-field scenario at a concrete
landing page. -/
theorem c4_witness :
    extractStory ⟨none, some (some "a"), some (some "t"), some (some "d"), some []⟩ =
      Outcome.panicked ∧
    extractStory ⟨some none, some (some "a"), some (some "t"), some (some "d"), some []⟩ =
      Outcome.err "could not find cover image" ∧
    extractStory ⟨some (some "c"), some none, some (some "t"), some (some "d"), some []⟩ =
      Outcome.err "could not find author" ∧
    extractStory ⟨some (some "c"), some (some "a"), some none, some (some "d"), some []⟩ =
      Outcome.err "could not find title" ∧
    extractStory ⟨some (some "c"), some (some "a"), some (some "t"), some none, some []⟩ =
      Outcome.err "could not find description" ∧
    extractStory ⟨some (some "c"), some (some "a"), some (some "t"), some (some "d"), none⟩ =
      Outcome.err "could not find chapters" ∧
    extractStory ⟨some (some "c"), none, some (some "t"), some (some "d"), some []⟩ =
      Outcome.panicked ∧
    extractStory ⟨some (some "c"), some (some "a"), none, some (some "d"), some []⟩ =
      Outcome.panicked ∧
    extractStory ⟨some (some "c"), some (some "a"), some (some "t"), none, some []⟩ =
      Outcome.panicked :=
  ⟨(c4_missing_fields _).1 rfl,
   (c4_missing_fields _).2.1 rfl,
   (c4_missing_fields _).2.2.1 "c" rfl rfl,
   (c4_missing_fields _).2.2.2.1 "c" "a" rfl rfl rfl,
   (c4_missing_fields _).2.2.2.2.1 "c" "a" "t" rfl rfl rfl rfl,
   (c4_missing_fields _).2.2.2.2.2.1 "c" "a" "t" "d" rfl rfl rfl rfl rfl,
   (c4_missing_fields _).2.2.2.2.2.2.1 "c" rfl rfl,
   (c4_missing_fields _).2.2.2.2.2.2.2.1 "c" "a" rfl rfl rfl,
   (c4_missing_fields _).2.2.2.2.2.2.2.2 "c" "a" "t" rfl rfl rfl rfl⟩

/-- C5: a cover URL whose path extension is not jpg, jpeg or png makes
`fetch_and_add_cover` fail with the "unsupported cover format" error and
leaves the document unchanged (no cover entry is added); for jpg and jpeg
the MIME type image/jpeg is used, for png image/png. -/
theorem c5_cover_format (doc : EpubDoc) (p : String) :
    ((extOfPath p ≠ "jpg" ∧ extOfPath p ≠ "jpeg" ∧ extOfPath p ≠ "png") →
      fetch_and_add_cover doc p = (Except.error "unsupported cover format", doc)) ∧
    ((extOfPath p = "jpg" ∨ extOfPath p = "jpeg") →
      (fetch_and_add_cover doc p).2.cover =
        some ("cover." ++ extOfPath p, "image/jpeg")) ∧
    (extOfPath p = "png" →
      (fetch_and_add_cover doc p).2.cover = some ("cover.png", "image/png")) := by
  refine ⟨?_, ?_, ?_⟩
  · rintro ⟨h1, h2, h3⟩
    simp [fetch_and_add_cover, mimeOf, h1, h2, h3]
  · rintro (h | h) <;> simp [fetch_and_add_cover, mimeOf, h]
  · intro h
    simp [fetch_and_add_cover, mimeOf, h]

/-- Witness for C5: a gif cover is rejected with the document untouched, a
jpg cover gets MIME image/jpeg, a png cover gets MIME image/png. -/
theorem c5_witness :
    fetch_and_add_cover ⟨none, []⟩ "/covers/a.gif" =
      (Except.error "unsupported cover format", ⟨none, []⟩) ∧
    (fetch_and_add_cover ⟨none, []⟩ "/covers/b.jpg").2.cover =
      some ("cover." ++ extOfPath "/covers/b.jpg", "image/jpeg") ∧
    (fetch_and_add_cover ⟨none, []⟩ "/covers/c.png").2.cover =
      some ("cover.png", "image/png") :=
  ⟨(c5_cover_format ⟨none, []⟩ "/covers/a.gif").1 (by decide),
   (c5_cover_format ⟨none, []⟩ "/covers/b.jpg").2.1 (Or.inl (by decide)),
   (c5_cover_format ⟨none, []⟩ "/covers/c.png").2.2 (by decide)⟩

/-- C8: every chapter link is resolved against the fixed base origin
https://www.royalroad.com before the request is dispatched: a page-relative
link such as /chapter/x is fetched from that origin, and an absolute
http(s) link is dispatched unchanged. -/
theorem c8_base_origin (link : String) :
    (strStartsWith link "/" = true → strStartsWith link "//" = false →
      fetch_chapter_url link = "https://www.royalroad.com" ++ link) ∧
    ((strStartsWith link "http://" = true ∨ strStartsWith link "https://" = true) →
      fetch_chapter_url link = link) := by
  obtain ⟨l⟩ := link
  constructor
  · intro h1 h2
    simp only [strStartsWith] at h1 h2
    cases l with
    | nil => simp [charPrefix] at h1
    | cons c t =>
      simp only [charPrefix, Bool.and_true] at h1
      have hc : c = '/' := by
        have := of_decide_eq_true (by exact h1)
        exact this.symm
      subst hc
      simp only [charPrefix, beq_self_eq_true, Bool.true_and] at h2
      show String.mk (joinUrlChars "https://www.royalroad.com".data ('/' :: t)) = _
      rw [show joinUrlChars "https://www.royalroad.com".data ('/' :: t) =
          "https://www.royalroad.com".data ++ '/' :: t from ?_]
      · rfl
      · unfold joinUrlChars
        rw [show ("http://" : String).data = ['h', 't', 't', 'p', ':', '/', '/'] from rfl,
          show ("https://" : String).data = ['h', 't', 't', 'p', 's', ':', '/', '/'] from rfl,
          show ("//" : String).data = ['/', '/'] from rfl,
          show ("/" : String).data = ['/'] from rfl]
        simp [charPrefix, h2]
  · intro h
    simp only [strStartsWith] at h
    show String.mk (joinUrlChars "https://www.royalroad.com".data l) = String.mk l
    unfold joinUrlChars
    rcases h with h | h
    · rw [h]
      simp
    · rw [h]
      simp

/-- Witness for C8: the page-relative link /chapter/x is dispatched at the
royalroad origin, and an absolute link is dispatched unchanged. -/
theorem c8_witness :
    fetch_chapter_url "/chapter/x" = "https://www.royalroad.com" ++ "/chapter/x" ∧
    fetch_chapter_url "https://other.site/a" = "https://other.site/a" :=
  ⟨(c8_base_origin "/chapter/x").1 (by decide) (by decide),
   (c8_base_origin "https://other.site/a").2 (Or.inr (by decide))⟩

/-- C9 is false as stated: a row whose anchor holds the two text nodes
"Chapter " and "One " produces the chapter name "Chapter" — the FIRST text
node trimmed — and not "Chapter One", the row's (full) text trimmed; the
link is the raw href. -/
theorem c9_counterexample :
    extractStory ⟨some (some "cov"), some (some "a"), some (some "t"),
        some (some "d"), some [⟨some "/chapter/1", ["Chapter ", "One "]⟩]⟩ =
      Outcome.ok ⟨"t", "a", "d", "cov", [⟨"Chapter", "/chapter/1"⟩]⟩ ∧
    trimStr (rowFullText ⟨some "/chapter/1", ["Chapter ", "One "]⟩) =
      "Chapter One" :=
  ⟨rfl, by decide⟩

/-- C9 (amended): on a landing page whose chapter-table rows each carry an
href and at least one text node, resolution succeeds and the chapter list
preserves the row order exactly, each chapter's name being the row's FIRST
text node with surrounding whitespace trimmed (not the concatenation of all
its text nodes) and its link the raw href attribute verbatim. -/
theorem c9_chapter_rows (d : LandingDoc) (cov auth tit desc : String)
    (rows : List RowA)
    (h1 : d.twitterImage = some (some cov))
    (h2 : d.twitterCreator = some (some auth))
    (h3 : d.twitterTitle = some (some tit))
    (h4 : d.twitterDescription = some (some desc))
    (h5 : d.chaptersTable = some rows)
    (hwf : ∀ r ∈ rows, r.href ≠ none ∧ r.texts ≠ []) :
    extractStory d =
      Outcome.ok ⟨tit, auth, desc, cov,
        rows.map fun r => Chapter.mk (trimStr (r.texts.headD "")) (r.href.getD "")⟩ := by
  have hch := extractChapters_wf rows hwf
  simp [extractStory, metaContent, h1, h2, h3, h4, h5, Outcome.bind, hch]

/-- Witness for the amended C9: two concrete rows extracted in order, names
trimmed, hrefs verbatim. -/
theorem c9_witness :
    extractStory ⟨some (some "cov"), some (some "auth"), some (some "tit"),
        some (some "desc"),
        some [⟨some "/c/1", [" A "]⟩, ⟨some "/c/2", ["B \n"]⟩]⟩ =
      Outcome.ok ⟨"tit", "auth", "desc", "cov",
        [⟨"A", "/c/1"⟩, ⟨"B", "/c/2"⟩]⟩ := by
  have h := c9_chapter_rows
    ⟨some (some "cov"), some (some "auth"), some (some "tit"), some (some "desc"),
      some [⟨some "/c/1", [" A "]⟩, ⟨some "/c/2", ["B \n"]⟩]⟩
    "cov" "auth" "tit" "desc" [⟨some "/c/1", [" A "]⟩, ⟨some "/c/2", ["B \n"]⟩]
    rfl rfl rfl rfl rfl (by decide)
  rw [h]
  rfl

/-- C10: the URL `fetch_story` actually fetches for the landing page is the
prefix of the input URL before the first occurrence of the substring
"/chapter/" — so a chapter-page URL is truncated to its story landing page —
and an input not containing "/chapter/" is fetched unchanged. -/
theorem c10_story_url (url : String) :
    landing_url url = specStoryUrl url ∧
    (∀ net, fetch_story net url = extractStory (net (specStoryUrl url))) ∧
    (firstOcc "/chapter/".data url.data = none → landing_url url = url) := by
  have hmain : landing_url url = specStoryUrl url := by
    obtain ⟨l⟩ := url
    show String.mk (takeUntilPat "/chapter/".data l) = specStoryUrl ⟨l⟩
    rw [takeUntil_firstOcc]
    unfold specStoryUrl
    cases h : firstOcc "/chapter/".data l with
    | some i => rfl
    | none => rfl
  refine ⟨hmain, ?_, ?_⟩
  · intro net
    simp [fetch_story, hmain]
  · intro h
    rw [hmain]
    unfold specStoryUrl
    rw [h]

/-- Witness for C10: a chapter-page URL is truncated to the landing page,
and a landing-page URL without "/chapter/" is fetched unchanged. -/
theorem c10_witness :
    landing_url "https://www.royalroad.com/fiction/1/x/chapter/2/y" =
      specStoryUrl "https://www.royalroad.com/fiction/1/x/chapter/2/y" ∧
    landing_url "https://www.royalroad.com/fiction/1/x" =
      "https://www.royalroad.com/fiction/1/x" :=
  ⟨(c10_story_url "https://www.royalroad.com/fiction/1/x/chapter/2/y").1,
   (c10_story_url "https://www.royalroad.com/fiction/1/x").2.2 (by decide)⟩
